import Mathlib

/-!
Verification of the numeric core of `calculadora.py` (mortgage simulator):
the amortization engine `amortization_schedule`, the mixed-mortgage routines
`mixed_total_interest` and `solve_r2_for_equal_interest`, the investment
ratio helper `comp_equiv`, and the bilinear premium interpolator
`prima_orientativa_ing` with its table.  Python floats are modelled by exact
rationals (`ℚ`); the fractional real power in `comp_equiv` is modelled over
`ℝ` with `Option` for the NaN marker; month counts are `ℤ` as in the source.
-/

set_option maxRecDepth 100000

namespace Calculadora

/-- One row of the amortization table built by `amortization_schedule`
(columns `Mes`, `Cuota`, `Intereses`, `Amortización`, `Saldo final`). -/
structure Row where
  mes : ℕ
  cuota : ℚ
  intereses : ℚ
  amortizacion : ℚ
  saldoFinal : ℚ
deriving DecidableEq

/-- Return value of `mixed_total_interest`:
`(intereses_totales, intereses_periodo1, intereses_periodo2, saldo_tras_p1)`. -/
structure MixedResult where
  total : ℚ
  ip1 : ℚ
  ip2 : ℚ
  balance : ℚ
deriving DecidableEq

/-- Return value of `solve_r2_for_equal_interest`:
`(r2_m_solution | None, target, total_mixed, ip1, ip2)`. -/
structure SolveResult where
  rate : Option ℚ
  target : ℚ
  achieved : ℚ
  ip1 : ℚ
  ip2 : ℚ
deriving DecidableEq

/-- The level-payment formula, inlined three times in the source
(`amortization_schedule`, period 1 and period 2 of `mixed_total_interest`):
`P / n` when the rate is zero, otherwise `P * r / (1 - (1 + r) ** (-n))`. -/
def levelPayment (P r : ℚ) (n : ℤ) : ℚ :=
  if r = 0 then P / (n : ℚ) else P * r / (1 - (1 + r) ^ (-n))

/-- The month loop of `amortization_schedule`: `m` is the 1-based month of the
current iteration, the second argument the number of months still to run
(the loop is `for m in range(1, n + 1)`), `b` the running balance.  On the
last month the source forces `principal_pay = balance`,
`payment_eff = principal_pay + interest` and `balance_end = 0.0`.  Each
recorded `Saldo final` is clamped by `max(balance_end, 0.0)` while the carried
balance is not clamped. -/
def amortRows (r p : ℚ) : ℕ → ℕ → ℚ → List Row
  | _, 0, _ => []
  | m, rem + 1, b =>
    let interest := if r ≠ 0 then b * r else 0
    let principal0 := if r ≠ 0 then p - interest else p
    if rem = 0 then
      let balance_end : ℚ := 0
      [{ mes := m, cuota := b + interest, intereses := interest,
         amortizacion := b, saldoFinal := max balance_end 0 }]
    else
      let balance_end := b - principal0
      { mes := m, cuota := p, intereses := interest, amortizacion := principal0,
        saldoFinal := max balance_end 0 } :: amortRows r p (m + 1) rem balance_end

/-- `amortization_schedule(P, r_m, n)` from the source: an empty table on
`P <= 0 or n <= 0`, otherwise the month-by-month table at the constant
monthly rate `r_m` over `n` months. -/
def amortization_schedule (P r : ℚ) (n : ℤ) : List Row :=
  if P ≤ 0 ∨ n ≤ 0 then []
  else amortRows r (levelPayment P r n) 1 n.toNat P

/-- The per-period accumulation loop of `mixed_total_interest`
(`for _ in range(k)`), returning (final balance, accumulated interest).
Each iteration performs `interest = balance * r if r != 0 else 0.0`;
`principal_pay = payment - interest if r != 0 else payment`;
`balance -= principal_pay`. -/
def phaseLoop (r p : ℚ) : ℕ → ℚ → ℚ × ℚ
  | 0, b => (b, 0)
  | k + 1, b =>
    let interest := if r ≠ 0 then b * r else 0
    let principal := if r ≠ 0 then p - interest else p
    let rest := phaseLoop r p k (b - principal)
    (rest.1, interest + rest.2)

/-- `mixed_total_interest(P, n, r1_m, m1, r2_m)` from the source: the guard
returns the identity result `(0, 0, 0, P)`; period 1 pays `m1` months of the
level payment computed with `r1_m` over the full term `n`; period 2 pays the
remaining `n - m1` months of a fresh level payment at `r2_m` on the carried
balance. -/
def mixed_total_interest (P : ℚ) (n : ℤ) (r1 : ℚ) (m1 : ℤ) (r2 : ℚ) :
    MixedResult :=
  if P ≤ 0 ∨ n ≤ 0 ∨ m1 < 0 ∨ m1 > n then ⟨0, 0, 0, P⟩
  else
    let payment1 := levelPayment P r1 n
    let res1 := phaseLoop r1 payment1 m1.toNat P
    let n2 := n - m1
    if n2 ≤ 0 then ⟨res1.2, res1.2, 0, 0⟩
    else
      let payment2 := levelPayment res1.1 r2 n2
      let res2 := phaseLoop r2 payment2 n2.toNat res1.1
      ⟨res1.2 + res2.2, res1.2, res2.2, res1.1⟩

/-- `target = float(df_fixed["Intereses"].sum())` in
`solve_r2_for_equal_interest`: total interest of the reference fixed loan. -/
def targetInterest (P : ℚ) (n : ℤ) (rFixed : ℚ) : ℚ :=
  ((amortization_schedule P rFixed n).map Row.intereses).sum

/-- The local function `f(r2m) = mixed_total_interest(...).total - target` of
`solve_r2_for_equal_interest`. -/
def fGap (P : ℚ) (n : ℤ) (rFixed r1 : ℚ) (m1 : ℤ) (r2 : ℚ) : ℚ :=
  (mixed_total_interest P n r1 m1 r2).total - targetInterest P n rFixed

/-- The bracket-expansion loop of `solve_r2_for_equal_interest`:
`while f_lo * f_hi > 0 and attempts < 20: hi *= 1.5; f_hi = f(hi)`.
Returns the final `(hi, f_hi)`. -/
def expandHi (f : ℚ → ℚ) (fLo : ℚ) : ℚ → ℚ → ℕ → ℚ × ℚ
  | hi, fHi, 0 => (hi, fHi)
  | hi, fHi, fuel + 1 =>
    if fLo * fHi > 0 then
      let hi' := hi * (3 / 2)
      expandHi f fLo hi' (f hi') fuel
    else (hi, fHi)

/-- The bisection loop of `solve_r2_for_equal_interest`
(`for _ in range(80)`), with the early break on `abs(f_mid) < 1e-8` (which
sets `lo = hi = mid`), narrowing by the sign of `f_lo * f_mid` and updating
`f_lo` only on the `lo = mid` branch.  Returns the final `(lo, hi)`. -/
def bisect (f : ℚ → ℚ) : ℕ → ℚ → ℚ → ℚ → ℚ × ℚ
  | 0, lo, _, hi => (lo, hi)
  | fuel + 1, lo, fLo, hi =>
    let mid := (lo + hi) / 2
    let fMid := f mid
    if |fMid| < 1 / 100000000 then (mid, mid)
    else if fLo * fMid ≤ 0 then bisect f fuel lo fLo mid
    else bisect f fuel mid fMid hi

/-- `solve_r2_for_equal_interest(P, n, r_fixed_m, r1_m, m1)` from the source:
the target is the fixed-loan interest; on `m1 >= n` the rate is `None`;
otherwise bisection on `f` over the initial bracket `[0, 2/12]`, with the
expansion loop and the no-sign-change `None` fallback (whose accompanying
figures are evaluated at `r2_m = lo`, i.e. `0`). -/
def solve_r2_for_equal_interest (P : ℚ) (n : ℤ) (rFixed r1 : ℚ) (m1 : ℤ) :
    SolveResult :=
  let target := targetInterest P n rFixed
  if m1 ≥ n then
    let res := mixed_total_interest P n r1 m1 0
    ⟨none, target, res.total, res.ip1, res.ip2⟩
  else
    let f := fGap P n rFixed r1 m1
    let fLo := f 0
    let hi0 : ℚ := 2 / 12
    let ex := expandHi f fLo hi0 (f hi0) 20
    if fLo * ex.2 > 0 then
      let res := mixed_total_interest P n r1 m1 0
      ⟨none, target, res.total, res.ip1, res.ip2⟩
    else
      let lohi := bisect f 80 0 fLo ex.1
      let sol := (lohi.1 + lohi.2) / 2
      let res := mixed_total_interest P n r1 m1 sol
      ⟨some sol, target, res.total, res.ip1, res.ip2⟩

/-- `comp_equiv(r, n)` from the source (the named helper of the investment
tab): `base = 1 + n * r`; returns `base ** (1 / n) - 1` when `base > 0` and
the NaN marker (`np.nan`, modelled as `none`) otherwise.  The function is
total: it never raises. -/
noncomputable def comp_equiv (r : ℚ) (n : ℕ) : Option ℝ :=
  if 0 < 1 + (n : ℚ) * r then
    some (((1 + (n : ℚ) * r : ℚ) : ℝ) ^ ((n : ℝ))⁻¹ - 1)
  else none

/-- `CAPITALS_ING` from the source: the capital breakpoints (euros). -/
def CAPITALS_ING : List ℚ :=
  [50000, 75000, 100000, 125000, 150000, 175000, 200000, 225000, 250000, 275000, 300000, 325000, 350000, 375000, 400000]

/-- The `PREMIAS_ING` entries of the source, scaled by 100: each premium
`d.dd` euros is stored as the integer `ddd` of cents, exactly. -/
def PREMIAS_DATA : List (ℕ × List ℕ) :=
  [(18, [941, 1381, 1864, 2288, 2743, 3196, 3650, 4125, 4583, 5042, 5456, 5919, 6374, 6827, 7281]),
   (19, [925, 1388, 1860, 2313, 2775, 3238, 3700, 4163, 4626, 5088, 5539, 6013, 6476, 6939, 7379]),
   (20, [916, 1373, 1831, 2289, 2769, 3205, 3670, 4120, 4578, 5036, 5474, 5951, 6409, 6867, 7277]),
   (21, [920, 1378, 1838, 2298, 2775, 3217, 3683, 4136, 4596, 5056, 5499, 5974, 6434, 6894, 7315]),
   (22, [923, 1384, 1845, 2307, 2782, 3230, 3696, 4152, 4614, 5075, 5525, 5998, 6458, 6921, 7353]),
   (23, [927, 1389, 1852, 2316, 2788, 3242, 3708, 4169, 4632, 5095, 5550, 6021, 6483, 6947, 7391]),
   (24, [930, 1395, 1860, 2325, 2795, 3255, 3721, 4185, 4649, 5114, 5576, 6045, 6509, 6974, 7429]),
   (25, [934, 1400, 1867, 2334, 2801, 3267, 3734, 4201, 4667, 5134, 5601, 6068, 6535, 7001, 7468]),
   (26, [927, 1390, 1860, 2318, 2783, 3246, 3704, 4168, 4634, 5100, 5547, 6004, 6475, 6938, 7411]),
   (27, [921, 1381, 1854, 2301, 2764, 3225, 3674, 4136, 4600, 5067, 5494, 5941, 6415, 6874, 7353]),
   (28, [914, 1371, 1847, 2285, 2746, 3204, 3644, 4104, 4567, 5034, 5440, 5888, 6355, 6811, 7296]),
   (29, [908, 1362, 1841, 2269, 2727, 3182, 3613, 4072, 4533, 5000, 5387, 5836, 6295, 6748, 7189]),
   (30, [901, 1352, 1834, 2253, 2709, 3160, 3583, 4036, 4500, 4950, 5333, 5784, 6234, 6685, 7082]),
   (31, [929, 1395, 1903, 2324, 2781, 3259, 3704, 4171, 4643, 5093, 5511, 5977, 6442, 6908, 7318]),
   (32, [958, 1439, 1971, 2394, 2854, 3357, 3826, 4307, 4786, 5237, 5689, 6171, 6650, 7132, 7555]),
   (33, [986, 1482, 2040, 2464, 2928, 3456, 3948, 4443, 4929, 5380, 5868, 6364, 6859, 7356, 7791]),
   (34, [1015, 1526, 2109, 2534, 3001, 3554, 4069, 4577, 5072, 5523, 6046, 6557, 7067, 7579, 8026]),
   (35, [1043, 1565, 2180, 2609, 3169, 3652, 4187, 4711, 5217, 5742, 6225, 6750, 7276, 7801, 8262]),
   (36, [1101, 1651, 2301, 2752, 3355, 3881, 4432, 4984, 5503, 6056, 6587, 7138, 7681, 8234, 8742]),
   (37, [1158, 1737, 2422, 2895, 3540, 4109, 4676, 5256, 5790, 6371, 6948, 7527, 8086, 8666, 9223]),
   (38, [1216, 1823, 2544, 3038, 3726, 4338, 4921, 5529, 6077, 6655, 7310, 7915, 8490, 9097, 9704]),
   (39, [1273, 1909, 2665, 3181, 3912, 4567, 5165, 5801, 6364, 6984, 7673, 8302, 8894, 9532, 10183]),
   (40, [1330, 1995, 2785, 3324, 4098, 4796, 5410, 6074, 6648, 7313, 8036, 8689, 9303, 9966, 10661]),
   (41, [1504, 2257, 3145, 3760, 4616, 5400, 6091, 6841, 7440, 8272, 9044, 9714, 10446, 11276, 12096]),
   (42, [1679, 2520, 3505, 4195, 5134, 6005, 6772, 7609, 8232, 9231, 10051, 10738, 11589, 12586, 13531]),
   (43, [1853, 2783, 3866, 4632, 5651, 6609, 7454, 8376, 9024, 10190, 11059, 11763, 12733, 13896, 14965]),
   (44, [2027, 3045, 4227, 5068, 6169, 7214, 8135, 9143, 9816, 11151, 12068, 12788, 13876, 15206, 16300]),
   (45, [2202, 3303, 4588, 5504, 6687, 7818, 8817, 9909, 11010, 12111, 13076, 14313, 15414, 16516, 17335]),
   (46, [2370, 3555, 4942, 5925, 7199, 8328, 9493, 10668, 11852, 13026, 14074, 15371, 16555, 17740, 18656]),
   (47, [2537, 3807, 5295, 6346, 7712, 8838, 10168, 11427, 12695, 13942, 15073, 16430, 17697, 18963, 19977]),
   (48, [2704, 4060, 5649, 6767, 8225, 9347, 10844, 12186, 13563, 14858, 16071, 17489, 18839, 20187, 21299]),
   (49, [2872, 4312, 6003, 7188, 8738, 9857, 11521, 12945, 14431, 15785, 17070, 18547, 19978, 21410, 22620]),
   (50, [3044, 4565, 6357, 7609, 9307, 10867, 12198, 13704, 15219, 16713, 18069, 19603, 21118, 22634, 23941]),
   (51, [3569, 5352, 7356, 8921, 10755, 12661, 14114, 16064, 17843, 19625, 20998, 23064, 24833, 26613, 27285]),
   (52, [4094, 6139, 8355, 10233, 12204, 14454, 16030, 18424, 20466, 22536, 23926, 26526, 28548, 30592, 30628]),
   (53, [4618, 6927, 9354, 11544, 13652, 16248, 17946, 20783, 23090, 25448, 26855, 29988, 32264, 34571, 33970]),
   (54, [5143, 7714, 10353, 12856, 15101, 18042, 19862, 23143, 25713, 28309, 29784, 33450, 35979, 38549, 37315]),
   (55, [5667, 8501, 11353, 14168, 16545, 19835, 21778, 25503, 28337, 31170, 32213, 36907, 39693, 42527, 42660]),
   (56, [5965, 8947, 12036, 14912, 17545, 20876, 23185, 26881, 29824, 32806, 34141, 38787, 41771, 44753, 45575]),
   (57, [6262, 9394, 12718, 15656, 18545, 21917, 24592, 28260, 31312, 34441, 36068, 40667, 43850, 46979, 48491]),
   (58, [6560, 9840, 13401, 16400, 19544, 22959, 25999, 29638, 32799, 36075, 37995, 42547, 45929, 49205, 51406]),
   (59, [6857, 10286, 14083, 17143, 20544, 24000, 27256, 31017, 34286, 37710, 39922, 44427, 48007, 51432, 54321]),
   (60, [7155, 10732, 14765, 17886, 21544, 25041, 28314, 32195, 35773, 39350, 41854, 46504, 50082, 53659, 57236])]

/-- `PREMIAS_ING` from the source: the age-indexed premium rows of the ING
table (euros), in the ascending age order produced by `sort_index()`. -/
def PREMIAS_ING : List (ℚ × List ℚ) :=
  PREMIAS_DATA.map fun p => ((p.1 : ℚ), p.2.map fun v => (v : ℚ) / 100)

/-- Exact equality of two rationals, decided through the linear order
(`a ≤ b` and `b ≤ a`); `ratEqB a b = true ↔ a = b` is proved below.  Used to
model the exact `==` comparisons of the source on data values. -/
def ratEqB (a b : ℚ) : Bool :=
  decide (a ≤ b) && decide (b ≤ a)

/-- `_lerp(x0, x1, y0, y1, x)` from the source: linear interpolation with the
degenerate guard `if x0 == x1: return y0` (no division by zero). -/
def lerp (x0 x1 y0 y1 x : ℚ) : ℚ :=
  if ratEqB x0 x1 then y0 else y0 + (y1 - y0) * (x - x0) / (x1 - x0)

/-- The bracketing rule of `prima_orientativa_ing`, applied to the age axis
and the capital axis alike: at or below the minimum use the two lowest
breakpoints, at or above the maximum the two highest, otherwise the nearest
breakpoint below (`max` of those `<= x`) and the nearest above (`min` of
those `>= x`). -/
def bracket (xs : List ℚ) (x : ℚ) : ℚ × ℚ :=
  if x ≤ (xs.min?).getD 0 then (xs.getD 0 0, xs.getD 1 0)
  else if x ≥ (xs.max?).getD 0 then
    (xs.getD (xs.length - 2) 0, xs.getD (xs.length - 1) 0)
  else
    (((xs.filter fun a => decide (a ≤ x)).max?).getD 0,
     ((xs.filter fun a => decide (x ≤ a)).min?).getD 0)

/-- `df.loc[a, c]` on the premium table: the row labelled `a` (age), selected
at the column labelled `c` among the capital breakpoints. -/
def lookupPrima (tbl : List (ℚ × List ℚ)) (caps : List ℚ) (a c : ℚ) : ℚ :=
  let row := ((tbl.find? fun p => ratEqB p.1 a).map Prod.snd).getD []
  (((caps.zip row).find? fun q => ratEqB q.1 c).map Prod.snd).getD 0

/-- `prima_orientativa_ing(edad, capital, df)` from the source: bilinear
interpolation on the age-by-capital table, interpolating across capital at
each bracketing age and then across age. -/
def prima_orientativa (tbl : List (ℚ × List ℚ)) (caps : List ℚ)
    (edad capital : ℚ) : ℚ :=
  let ages := tbl.map Prod.fst
  let ab := bracket ages edad
  let cb := bracket caps capital
  let vA0C0 := lookupPrima tbl caps ab.1 cb.1
  let vA0C1 := lookupPrima tbl caps ab.1 cb.2
  let vA1C0 := lookupPrima tbl caps ab.2 cb.1
  let vA1C1 := lookupPrima tbl caps ab.2 cb.2
  let v0 := lerp cb.1 cb.2 vA0C0 vA0C1 capital
  let v1 := lerp cb.1 cb.2 vA1C0 vA1C1 capital
  lerp ab.1 ab.2 v0 v1 edad

/-- The interpolator specialised to the concrete ING table, as used by the
bonus-study tab. -/
def prima_orientativa_ing (edad capital : ℚ) : ℚ :=
  prima_orientativa PREMIAS_ING CAPITALS_ING edad capital

/-- Proof-layer abbreviation: the geometric sum `1 + (1+x) + ... + (1+x)^(k-1)`
used in the closed form of the amortization loop. -/
def gsum (x : ℚ) (k : ℕ) : ℚ :=
  ∑ j ∈ Finset.range k, (1 + x) ^ j

/-- Proof-layer abbreviation: the present-value annuity factor
`∑_{j=1..k} (1+x)^(-j)`; the level payment equals `principal / invPowSum`. -/
def invPowSum (x : ℚ) (k : ℕ) : ℚ :=
  ∑ j ∈ Finset.range k, ((1 + x)⁻¹) ^ (j + 1)

end Calculadora

/-! ## Basic lemmas about the amortization loop -/

namespace Calculadora

theorem ratEqB_eq_true_iff (a b : ℚ) : ratEqB a b = true ↔ a = b := by
  simp only [ratEqB, Bool.and_eq_true, decide_eq_true_eq]
  exact le_antisymm_iff.symm

theorem getLast?_cons_of_ne_nil {α : Type} (a : α) {l : List α} (h : l ≠ []) :
    (a :: l).getLast? = l.getLast? := by
  cases l with
  | nil => exact absurd rfl h
  | cons x xs => exact List.getLast?_cons_cons

theorem amortRows_length (r p : ℚ) :
    ∀ (k m : ℕ) (b : ℚ), (amortRows r p m k b).length = k := by
  intro k
  induction k with
  | zero => intro m b; rfl
  | succ rem ih =>
    intro m b
    by_cases h : rem = 0
    · subst h; simp [amortRows]
    · simp only [amortRows]
      rw [if_neg h]
      simp [ih]

theorem amortRows_sum_amortizacion (r p : ℚ) :
    ∀ (k m : ℕ) (b : ℚ), k ≠ 0 →
      ((amortRows r p m k b).map Row.amortizacion).sum = b := by
  intro k
  induction k with
  | zero => intro m b h; exact absurd rfl h
  | succ rem ih =>
    intro m b _
    by_cases h : rem = 0
    · subst h; simp [amortRows]
    · simp only [amortRows]
      rw [if_neg h]
      simp only [List.map_cons, List.sum_cons]
      have hrec := fun b0 => ih (m + 1) b0 h
      rw [hrec]
      ring

theorem amortRows_getLast_saldo (r p : ℚ) :
    ∀ (k m : ℕ) (b : ℚ), k ≠ 0 →
      ((amortRows r p m k b).map Row.saldoFinal).getLast? = some 0 := by
  intro k
  induction k with
  | zero => intro m b h; exact absurd rfl h
  | succ rem ih =>
    intro m b _
    by_cases h : rem = 0
    · subst h; simp [amortRows]
    · simp only [amortRows]
      rw [if_neg h]
      simp only [List.map_cons]
      rw [getLast?_cons_of_ne_nil]
      · exact ih _ _ h
      · have hlen := amortRows_length r p rem (m + 1)
        intro hc
        have := congrArg List.length hc
        simp [hlen] at this
        exact h this

theorem amortRows_saldo_nonneg (r p : ℚ) :
    ∀ (k m : ℕ) (b : ℚ), ∀ row ∈ amortRows r p m k b, 0 ≤ row.saldoFinal := by
  intro k
  induction k with
  | zero => intro m b row h; simp [amortRows] at h
  | succ rem ih =>
    intro m b row h
    by_cases h0 : rem = 0
    · subst h0
      simp [amortRows] at h
      subst h
      simp
    · simp only [amortRows] at h
      rw [if_neg h0] at h
      simp only [List.mem_cons] at h
      rcases h with h | h
      · subst h; exact le_max_right _ 0
      · exact ih _ _ row h

theorem amortRows_sum_intereses (r p : ℚ) :
    ∀ (k m : ℕ) (b : ℚ), k ≠ 0 →
      ((amortRows r p m k b).map Row.intereses).sum = (phaseLoop r p k b).2 := by
  intro k
  induction k with
  | zero => intro m b h; exact absurd rfl h
  | succ rem ih =>
    intro m b _
    by_cases h : rem = 0
    · subst h; simp [amortRows, phaseLoop]
    · simp only [amortRows, phaseLoop]
      rw [if_neg h]
      simp only [List.map_cons, List.sum_cons]
      rw [ih _ _ h]

/-- C1: for every principal `P > 0`, term `n > 0` and monthly rate `r ≥ 0`,
`amortization_schedule P r n` has exactly `n` rows, the last recorded ending
balance is exactly `0`, and the sum of the principal portions equals `P`
(exactly over `ℚ`, hence within `1e-6`). -/
theorem schedule_length_lastZero_sumPrincipal (P r : ℚ) (n : ℤ)
    (hP : 0 < P) (hn : 0 < n) (hr : 0 ≤ r) :
    ((amortization_schedule P r n).length : ℤ) = n ∧
    ((amortization_schedule P r n).map Row.saldoFinal).getLast? = some 0 ∧
    |((amortization_schedule P r n).map Row.amortizacion).sum - P| ≤ 1 / 1000000 := by
  have hg : ¬ (P ≤ 0 ∨ n ≤ 0) := by push_neg; exact ⟨hP, hn⟩
  have hk : n.toNat ≠ 0 := by omega
  unfold amortization_schedule
  rw [if_neg hg]
  refine ⟨?_, amortRows_getLast_saldo _ _ n.toNat 1 P hk, ?_⟩
  · rw [amortRows_length]
    exact Int.toNat_of_nonneg hn.le
  · rw [amortRows_sum_amortizacion _ _ n.toNat 1 P hk]
    simp

/-- Witness for C1 at `P = 1000`, `r = 1/200`, `n = 12`. -/
theorem schedule_length_lastZero_sumPrincipal_witness :
    ((amortization_schedule 1000 (1/200) 12).length : ℤ) = 12 ∧
    ((amortization_schedule 1000 (1/200) 12).map Row.saldoFinal).getLast? = some 0 ∧
    |((amortization_schedule 1000 (1/200) 12).map Row.amortizacion).sum - 1000|
      ≤ 1 / 1000000 :=
  schedule_length_lastZero_sumPrincipal 1000 (1/200) 12 (by norm_num) (by norm_num)
    (by norm_num)

/-- C8: every row of the schedule records a non-negative ending balance (it is
clamped by `max(balance_end, 0.0)`). -/
theorem schedule_saldo_nonneg (P r : ℚ) (n : ℤ)
    (hP : 0 < P) (hn : 0 < n) (hr : 0 ≤ r) :
    ∀ row ∈ amortization_schedule P r n, 0 ≤ row.saldoFinal := by
  have hg : ¬ (P ≤ 0 ∨ n ≤ 0) := by push_neg; exact ⟨hP, hn⟩
  unfold amortization_schedule
  rw [if_neg hg]
  exact amortRows_saldo_nonneg _ _ n.toNat 1 P

/-- Witness for C8: the first row of `amortization_schedule 12 0 12`. -/
theorem schedule_saldo_nonneg_witness :
    (0 : ℚ) ≤ (Row.mk 1 1 0 1 11).saldoFinal :=
  schedule_saldo_nonneg 12 0 12 (by norm_num) (by norm_num) le_rfl
    (Row.mk 1 1 0 1 11) (of_decide_eq_true (by with_unfolding_all rfl))

/-- C4: with phase 1 spanning the full term (`m1 = n`), `mixed_total_interest`
returns phase-2 interest `0`, total equal to phase-1 interest, and phase-1
interest equal to the interest column sum of the pure fixed schedule at the
same rate. -/
theorem mixed_full_term_phase1 (P r r2 : ℚ) (n : ℤ)
    (hP : 0 < P) (hn : 0 < n) (hr : 0 ≤ r) :
    (mixed_total_interest P n r n r2).ip2 = 0 ∧
    (mixed_total_interest P n r n r2).total = (mixed_total_interest P n r n r2).ip1 ∧
    (mixed_total_interest P n r n r2).ip1
      = ((amortization_schedule P r n).map Row.intereses).sum := by
  have hg : ¬ (P ≤ 0 ∨ n ≤ 0 ∨ n < 0 ∨ n > n) := by
    push_neg
    exact ⟨hP, by omega, by omega, le_rfl⟩
  have hg2 : ¬ (P ≤ 0 ∨ n ≤ 0) := by push_neg; exact ⟨hP, hn⟩
  unfold mixed_total_interest
  rw [if_neg hg]
  simp only []
  rw [if_pos (by omega : n - n ≤ 0)]
  refine ⟨rfl, rfl, ?_⟩
  unfold amortization_schedule
  rw [if_neg hg2]
  rw [amortRows_sum_intereses _ _ n.toNat 1 P (by omega)]

/-- Witness for C4 at `P = 1000`, `r = 1/200`, `n = 12`, `r2 = 7`. -/
theorem mixed_full_term_phase1_witness :
    (mixed_total_interest 1000 12 (1/200) 12 7).ip2 = 0 ∧
    (mixed_total_interest 1000 12 (1/200) 12 7).total
      = (mixed_total_interest 1000 12 (1/200) 12 7).ip1 ∧
    (mixed_total_interest 1000 12 (1/200) 12 7).ip1
      = ((amortization_schedule 1000 (1/200) 12).map Row.intereses).sum :=
  mixed_full_term_phase1 1000 (1/200) 7 12 (by norm_num) (by norm_num) (by norm_num)

/-- C6: on any structurally invalid input (`P ≤ 0`, `n ≤ 0`, or `m1` outside
`[0, n]`), `mixed_total_interest` returns the identity result
`(0, 0, 0, P)` (and, being total, raises nothing). -/
theorem mixed_guard_identity (P r1 r2 : ℚ) (n m1 : ℤ)
    (h : P ≤ 0 ∨ n ≤ 0 ∨ m1 < 0 ∨ m1 > n) :
    mixed_total_interest P n r1 m1 r2 = ⟨0, 0, 0, P⟩ := by
  unfold mixed_total_interest
  rw [if_pos h]

/-- Witness for C6 at `P = 100 > 0`, `n = 12 > 0` but `m1 = -3 < 0`. -/
theorem mixed_guard_identity_witness :
    mixed_total_interest 100 12 (1/100) (-3) (1/50) = ⟨0, 0, 0, 100⟩ :=
  mixed_guard_identity 100 (1/100) (1/50) 12 (-3) (by norm_num)

end Calculadora

/-! ## Closed forms for the amortization loop and the annuity payment -/

namespace Calculadora

theorem phaseLoop_succ_eq (r p : ℚ) (k : ℕ) (b : ℚ) :
    phaseLoop r p (k + 1) b
      = ((phaseLoop r p k (b * (1 + r) - p)).1,
         b * r + (phaseLoop r p k (b * (1 + r) - p)).2) := by
  by_cases h : r = 0
  · subst h
    rw [show b * (1 + (0:ℚ)) - p = b - p by ring]
    simp [phaseLoop]
  · rw [show b * (1 + r) - p = b - (p - b * r) by ring]
    simp [phaseLoop, h]

theorem phaseLoop_fst (r p : ℚ) :
    ∀ (k : ℕ) (b : ℚ), (phaseLoop r p k b).1 = b * (1 + r) ^ k - p * gsum r k := by
  intro k
  induction k with
  | zero => intro b; simp [phaseLoop, gsum]
  | succ k ih =>
    intro b
    rw [phaseLoop_succ_eq]
    simp only [ih, gsum, Finset.sum_range_succ]
    rw [← gsum]
    simp only [ih, gsum]
    ring

theorem phaseLoop_snd (r p : ℚ) :
    ∀ (k : ℕ) (b : ℚ), (phaseLoop r p k b).2 = k * p - b + (phaseLoop r p k b).1 := by
  intro k
  induction k with
  | zero => intro b; simp [phaseLoop]
  | succ k ih =>
    intro b
    rw [phaseLoop_succ_eq]
    simp only [ih, phaseLoop_fst]
    push_cast
    ring

theorem invPowSum_zero_rate (k : ℕ) : invPowSum 0 k = k := by
  simp [invPowSum]

theorem invPowSum_nonneg (x : ℚ) (k : ℕ) (hx : 0 ≤ x) : 0 ≤ invPowSum x k := by
  apply Finset.sum_nonneg
  intro j _
  positivity

theorem invPowSum_pos (x : ℚ) (k : ℕ) (hx : 0 ≤ x) (hk : k ≠ 0) :
    0 < invPowSum x k := by
  apply Finset.sum_pos
  · intro j _
    have h1x : (0:ℚ) < 1 + x := by linarith
    positivity
  · exact Finset.nonempty_range_iff.mpr hk

theorem invPowSum_mul (x : ℚ) (hx : (1:ℚ) + x ≠ 0) :
    ∀ k : ℕ, x * invPowSum x k = 1 - ((1 + x)⁻¹) ^ k := by
  intro k
  induction k with
  | zero => simp [invPowSum]
  | succ k ih =>
    rw [invPowSum, Finset.sum_range_succ, ← invPowSum, mul_add, ih]
    have hxy : x * (1 + x)⁻¹ = 1 - (1 + x)⁻¹ := by
      field_simp
    have hstep : x * ((1 + x)⁻¹) ^ (k + 1) = ((1 + x)⁻¹) ^ k * (x * (1 + x)⁻¹) := by
      rw [pow_succ]; ring
    have hkey : x * ((1 + x)⁻¹) ^ (k + 1) = ((1 + x)⁻¹) ^ k - ((1 + x)⁻¹) ^ (k + 1) := by
      rw [hstep, hxy, pow_succ]; ring
    rw [hkey]
    ring

theorem invPowSum_mul_pow (x : ℚ) (hx : (1:ℚ) + x ≠ 0) :
    ∀ k : ℕ, invPowSum x k * (1 + x) ^ k = gsum x k := by
  intro k
  induction k with
  | zero => simp [invPowSum, gsum]
  | succ k ih =>
    have h1 : ((1 + x)⁻¹) ^ (k + 1) * (1 + x) ^ (k + 1) = 1 := by
      rw [← mul_pow, inv_mul_cancel₀ hx, one_pow]
    have h2 : gsum x (k + 1) = (1 + x) ^ k + gsum x k := by
      rw [gsum, geom_sum_succ', ← gsum]
    rw [invPowSum, Finset.sum_range_succ, ← invPowSum, h2]
    calc (invPowSum x k + ((1 + x)⁻¹) ^ (k + 1)) * (1 + x) ^ (k + 1)
        = (invPowSum x k * (1 + x) ^ k) * (1 + x)
            + ((1 + x)⁻¹) ^ (k + 1) * (1 + x) ^ (k + 1) := by ring
      _ = gsum x k * (1 + x) + 1 := by rw [ih, h1]
      _ = ((1 + x) * ∑ j ∈ Finset.range k, (1 + x) ^ j) + 1 := by rw [gsum]; ring
      _ = ∑ j ∈ Finset.range (k + 1), (1 + x) ^ j := geom_sum_succ.symm
      _ = (1 + x) ^ k + gsum x k := by rw [geom_sum_succ', gsum]

theorem invPowSum_add (x : ℚ) (m : ℕ) :
    ∀ d : ℕ, invPowSum x (m + d)
      = invPowSum x m + ((1 + x)⁻¹) ^ m * invPowSum x d := by
  intro d
  induction d with
  | zero => simp [invPowSum]
  | succ d ih =>
    have hrhs : invPowSum x (d + 1) = invPowSum x d + ((1 + x)⁻¹) ^ (d + 1) := by
      rw [invPowSum, Finset.sum_range_succ, ← invPowSum]
    rw [show m + (d + 1) = (m + d) + 1 by omega]
    rw [invPowSum, Finset.sum_range_succ, ← invPowSum, ih, hrhs]
    rw [show m + d + 1 = m + (d + 1) by omega, pow_add]
    ring

end Calculadora

/-! ## The level payment as `principal / annuity factor`, and its consequences -/

namespace Calculadora

theorem levelPayment_eq_div (B x : ℚ) (k : ℕ) (hx : 0 ≤ x) (hk : k ≠ 0) :
    levelPayment B x (k : ℤ) = B / invPowSum x k := by
  have h1x : (0:ℚ) < 1 + x := by linarith
  by_cases h : x = 0
  · subst h
    rw [levelPayment, if_pos rfl, invPowSum_zero_rate]
    push_cast
    rfl
  · rw [levelPayment, if_neg h]
    have hzp : ((1:ℚ) + x) ^ (-(k:ℤ)) = ((1 + x)⁻¹) ^ k := by
      rw [zpow_neg, zpow_natCast, inv_pow]
    rw [hzp, ← invPowSum_mul x h1x.ne' k]
    have hS : invPowSum x k ≠ 0 := (invPowSum_pos x k hx hk).ne'
    field_simp
    ring

theorem phaseLoop_annuity_balance (B x : ℚ) (k : ℕ) (hx : 0 ≤ x) (hk : k ≠ 0) :
    (phaseLoop x (levelPayment B x (k : ℤ)) k B).1 = 0 := by
  have h1x : (0:ℚ) < 1 + x := by linarith
  have hS : invPowSum x k ≠ 0 := (invPowSum_pos x k hx hk).ne'
  rw [phaseLoop_fst, levelPayment_eq_div B x k hx hk,
    ← invPowSum_mul_pow x h1x.ne' k]
  field_simp
  ring

theorem phaseLoop_annuity_interest (B x : ℚ) (k : ℕ) (hx : 0 ≤ x) (hk : k ≠ 0) :
    (phaseLoop x (levelPayment B x (k : ℤ)) k B).2
      = k * (B / invPowSum x k) - B := by
  rw [phaseLoop_snd, phaseLoop_annuity_balance B x k hx hk,
    levelPayment_eq_div B x k hx hk]
  ring

theorem phase1_balance_eq (P x : ℚ) (m n : ℕ) (hx : 0 ≤ x) (hmn : m < n) :
    (phaseLoop x (levelPayment P x (n : ℤ)) m P).1
      = P * invPowSum x (n - m) / invPowSum x n := by
  have h1x : (0:ℚ) < 1 + x := by linarith
  have hn0 : n ≠ 0 := by omega
  have hS : invPowSum x n ≠ 0 := (invPowSum_pos x n hx hn0).ne'
  have hsplit : invPowSum x n
      = invPowSum x m + ((1 + x)⁻¹) ^ m * invPowSum x (n - m) := by
    have h := invPowSum_add x m (n - m)
    rw [show m + (n - m) = n by omega] at h
    exact h
  have hyx : ((1 + x)⁻¹) ^ m * (1 + x) ^ m = 1 := by
    rw [← mul_pow, inv_mul_cancel₀ h1x.ne', one_pow]
  have key : (phaseLoop x (levelPayment P x (n : ℤ)) m P).1 * invPowSum x n
      = P * invPowSum x (n - m) := by
    rw [phaseLoop_fst, levelPayment_eq_div P x n hx hn0,
      ← invPowSum_mul_pow x h1x.ne' m]
    have e1 : P / invPowSum x n * invPowSum x n = P := div_mul_cancel₀ P hS
    calc (P * (1 + x) ^ m - P / invPowSum x n * (invPowSum x m * (1 + x) ^ m))
          * invPowSum x n
        = P * (1 + x) ^ m * invPowSum x n
            - (P / invPowSum x n * invPowSum x n)
              * (invPowSum x m * (1 + x) ^ m) := by ring
      _ = P * (1 + x) ^ m * invPowSum x n
            - P * (invPowSum x m * (1 + x) ^ m) := by rw [e1]
      _ = P * (1 + x) ^ m * (invPowSum x n - invPowSum x m) := by ring
      _ = P * (1 + x) ^ m * (((1 + x)⁻¹) ^ m * invPowSum x (n - m)) := by
          rw [hsplit]; ring
      _ = P * invPowSum x (n - m) * (((1 + x)⁻¹) ^ m * (1 + x) ^ m) := by ring
      _ = P * invPowSum x (n - m) := by rw [hyx, mul_one]
  rw [eq_div_iff hS]
  exact key

theorem phase1_balance_pos (P x : ℚ) (m n : ℕ)
    (hP : 0 < P) (hx : 0 ≤ x) (hmn : m < n) :
    0 < (phaseLoop x (levelPayment P x (n : ℤ)) m P).1 := by
  rw [phase1_balance_eq P x m n hx hmn]
  have h1 := invPowSum_pos x (n - m) hx (by omega)
  have h2 := invPowSum_pos x n hx (by omega)
  positivity

theorem phase1_balance_le (P x : ℚ) (m n : ℕ)
    (hP : 0 < P) (hx : 0 ≤ x) (hmn : m < n) :
    (phaseLoop x (levelPayment P x (n : ℤ)) m P).1 ≤ P := by
  rw [phase1_balance_eq P x m n hx hmn]
  have h2 := invPowSum_pos x n hx (by omega : n ≠ 0)
  rw [div_le_iff₀ h2]
  have hmono : invPowSum x (n - m) ≤ invPowSum x n := by
    have h := invPowSum_add x (n - m) m
    rw [show n - m + m = n by omega] at h
    rw [h]
    have hm := invPowSum_nonneg x m hx
    have h1x : (0:ℚ) < 1 + x := by linarith
    have hy : (0:ℚ) ≤ ((1 + x)⁻¹) ^ (n - m) := by positivity
    nlinarith [mul_nonneg hy hm]
  exact mul_le_mul_of_nonneg_left hmono hP.le

end Calculadora

/-! ## Total interest of the mixed loan as a function of the phase-2 rate -/

namespace Calculadora

theorem invPowSum_lt (a b : ℚ) (k : ℕ) (ha : 0 ≤ a) (hab : a < b) (hk : k ≠ 0) :
    invPowSum b k < invPowSum a k := by
  apply Finset.sum_lt_sum_of_nonempty (Finset.nonempty_range_iff.mpr hk)
  intro j _
  have h1a : (0:ℚ) < 1 + a := by linarith
  have hlt : (1 + b)⁻¹ < (1 + a)⁻¹ := inv_lt_inv_of_lt h1a (by linarith)
  exact pow_lt_pow_left hlt (inv_nonneg.mpr (by linarith)) (Nat.succ_ne_zero j)

theorem mixed_total_eq (P : ℚ) (n : ℤ) (r1 : ℚ) (m1 : ℤ) (r2 : ℚ)
    (hP : 0 < P) (hn : 0 < n) (hm0 : 0 ≤ m1) (hmn : m1 < n) (hr2 : 0 ≤ r2) :
    (mixed_total_interest P n r1 m1 r2).total
      = (phaseLoop r1 (levelPayment P r1 n) m1.toNat P).2
        + (((n - m1).toNat : ℚ)
            * ((phaseLoop r1 (levelPayment P r1 n) m1.toNat P).1
                / invPowSum r2 (n - m1).toNat)
          - (phaseLoop r1 (levelPayment P r1 n) m1.toNat P).1) := by
  have hg : ¬ (P ≤ 0 ∨ n ≤ 0 ∨ m1 < 0 ∨ m1 > n) := by
    push_neg
    exact ⟨hP, by omega, by omega, by omega⟩
  simp only [mixed_total_interest]
  rw [if_neg hg, if_neg (by omega : ¬ (n - m1 ≤ 0))]
  dsimp only []
  set k := (n - m1).toNat with hk
  have hcast : (k : ℤ) = n - m1 := by omega
  rw [← hcast]
  rw [phaseLoop_annuity_interest _ r2 k hr2 (by omega)]

theorem mixed_phase1_balance_pos (P : ℚ) (n : ℤ) (r1 : ℚ) (m1 : ℤ)
    (hP : 0 < P) (hr1 : 0 ≤ r1) (hm0 : 0 ≤ m1) (hmn : m1 < n) :
    0 < (phaseLoop r1 (levelPayment P r1 n) m1.toNat P).1 := by
  have h := phase1_balance_pos P r1 m1.toNat n.toNat hP hr1 (by omega)
  rw [show ((n.toNat : ℕ) : ℤ) = n by omega] at h
  exact h

theorem mixed_phase1_balance_le (P : ℚ) (n : ℤ) (r1 : ℚ) (m1 : ℤ)
    (hP : 0 < P) (hr1 : 0 ≤ r1) (hm0 : 0 ≤ m1) (hmn : m1 < n) :
    (phaseLoop r1 (levelPayment P r1 n) m1.toNat P).1 ≤ P := by
  have h := phase1_balance_le P r1 m1.toNat n.toNat hP hr1 (by omega)
  rw [show ((n.toNat : ℕ) : ℤ) = n by omega] at h
  exact h

theorem mixed_total_lt_of_r2_lt (P : ℚ) (n : ℤ) (r1 : ℚ) (m1 : ℤ) (a b : ℚ)
    (hP : 0 < P) (hn : 0 < n) (hr1 : 0 ≤ r1) (hm0 : 0 ≤ m1) (hmn : m1 < n)
    (ha : 0 ≤ a) (hab : a < b) :
    (mixed_total_interest P n r1 m1 a).total
      < (mixed_total_interest P n r1 m1 b).total := by
  have hb : 0 ≤ b := le_trans ha hab.le
  rw [mixed_total_eq P n r1 m1 a hP hn hm0 hmn ha,
    mixed_total_eq P n r1 m1 b hP hn hm0 hmn hb]
  set k := (n - m1).toNat with hk
  have hk0 : k ≠ 0 := by omega
  have hBpos := mixed_phase1_balance_pos P n r1 m1 hP hr1 hm0 hmn
  have hSa := invPowSum_pos a k ha hk0
  have hSb := invPowSum_pos b k hb hk0
  have hlt : invPowSum b k < invPowSum a k := invPowSum_lt a b k ha hab hk0
  have hdiv : (phaseLoop r1 (levelPayment P r1 n) m1.toNat P).1 / invPowSum a k
      < (phaseLoop r1 (levelPayment P r1 n) m1.toNat P).1 / invPowSum b k :=
    (div_lt_div_left hBpos hSa hSb).mpr hlt
  have hkpos : (0:ℚ) < (k : ℚ) := by exact_mod_cast Nat.pos_of_ne_zero hk0
  have := mul_lt_mul_of_pos_left hdiv hkpos
  linarith

/-- C9: for fixed `P > 0`, `n > 0`, phase-1 rate `r1 ≥ 0` and phase-1 length
`0 ≤ m1 < n`, the total interest of `mixed_total_interest` is strictly
increasing in the phase-2 rate on `r2 ≥ 0` (so the equal-interest equation
has at most one root there). -/
theorem mixed_total_strictMono_r2 (P : ℚ) (n : ℤ) (r1 : ℚ) (m1 : ℤ) (a b : ℚ)
    (hP : 0 < P) (hn : 0 < n) (hr1 : 0 ≤ r1) (hm0 : 0 ≤ m1) (hmn : m1 < n)
    (ha : 0 ≤ a) (hab : a < b) :
    (mixed_total_interest P n r1 m1 a).total
      < (mixed_total_interest P n r1 m1 b).total :=
  mixed_total_lt_of_r2_lt P n r1 m1 a b hP hn hr1 hm0 hmn ha hab

/-- Witness for C9 at `P = 1200`, `n = 12`, `r1 = 0`, `m1 = 6`, rates
`0 < 1/12`. -/
theorem mixed_total_strictMono_r2_witness :
    (mixed_total_interest 1200 12 0 6 0).total
      < (mixed_total_interest 1200 12 0 6 (1/12)).total :=
  mixed_total_strictMono_r2 1200 12 0 6 0 (1/12) (by norm_num) (by norm_num)
    le_rfl (by norm_num) (by norm_num) le_rfl (by norm_num)

end Calculadora

/-! ## The compound-equivalent rate, and the no-bracket path of the solver -/

namespace Calculadora

/-- C2: `comp_equiv r n` returns the NaN marker (`none`) exactly when
`1 + n·r ≤ 0`, and is silently computed as a number exactly when
`1 + n·r > 0`; as a total Lean function it never throws. -/
theorem comp_equiv_none_iff (r : ℚ) (n : ℕ) :
    comp_equiv r n = none ↔ 1 + (n : ℚ) * r ≤ 0 := by
  unfold comp_equiv
  split_ifs with h
  · exact iff_of_false (by simp) (not_le.mpr h)
  · exact iff_of_true rfl (not_lt.mp h)

theorem expandHi_all_pos (f : ℚ → ℚ) (fLo : ℚ) :
    ∀ (fuel : ℕ) (hi : ℚ),
      (∀ k ≤ fuel, 0 < fLo * f (hi * (3/2) ^ k)) →
      expandHi f fLo hi (f hi) fuel
        = (hi * (3/2) ^ fuel, f (hi * (3/2) ^ fuel)) := by
  intro fuel
  induction fuel with
  | zero =>
    intro hi _
    simp [expandHi]
  | succ fuel ih =>
    intro hi h
    have h0 : 0 < fLo * f hi := by simpa using h 0 (by omega)
    have harg : ∀ k : ℕ, hi * (3/2 : ℚ) * (3/2) ^ k = hi * (3/2) ^ (k + 1) := by
      intro k
      rw [pow_succ]
      ring
    simp only [expandHi]
    rw [if_pos h0]
    rw [ih (hi * (3/2)) fun k hk => by
      rw [harg k]
      exact h (k + 1) (by omega)]
    rw [harg fuel]

/-- C5: when `m1 < n` and `f` shows no sign change on the initial bracket
`[0, 2/12]` nor after any of the 20 multiplications of the upper bound by
`1.5`, the solver returns `None` for the rate (an explicit no-solution
signal) instead of raising. -/
theorem solve_no_sign_change_none (P : ℚ) (n : ℤ) (rFixed r1 : ℚ) (m1 : ℤ)
    (hm : m1 < n)
    (hall : ∀ k ≤ 20, 0 < fGap P n rFixed r1 m1 0
        * fGap P n rFixed r1 m1 ((2/12) * (3/2) ^ k)) :
    (solve_r2_for_equal_interest P n rFixed r1 m1).rate = none := by
  simp only [solve_r2_for_equal_interest]
  rw [if_neg (by omega : ¬ m1 ≥ n)]
  rw [expandHi_all_pos (fGap P n rFixed r1 m1) (fGap P n rFixed r1 m1 0) 20
    (2/12) hall]
  rw [if_pos (hall 20 (by omega))]

/-- Witness for C5: `P = 1200`, `n = 12`, reference fixed rate `0` (target
interest `0`) and positive `r1 = 1/120`, so every `f` value is positive and
no sign change ever appears. -/
theorem solve_no_sign_change_none_witness :
    (solve_r2_for_equal_interest 1200 12 0 (1/120) 6).rate = none :=
  solve_no_sign_change_none 1200 12 0 (1/120) 6 (by norm_num)
    (of_decide_eq_true (by with_unfolding_all rfl))

/-- C10: on the same no-sign-change path, the achieved total interest and the
two phase interests accompanying the `None` rate are those of the mixed loan
evaluated at `r2 = 0` (the source passes `r2_m = lo`, and `lo` is still `0`),
not at the last expanded upper bound. -/
theorem solve_no_sign_change_values (P : ℚ) (n : ℤ) (rFixed r1 : ℚ) (m1 : ℤ)
    (hm : m1 < n)
    (hall : ∀ k ≤ 20, 0 < fGap P n rFixed r1 m1 0
        * fGap P n rFixed r1 m1 ((2/12) * (3/2) ^ k)) :
    (solve_r2_for_equal_interest P n rFixed r1 m1).achieved
        = (mixed_total_interest P n r1 m1 0).total ∧
    (solve_r2_for_equal_interest P n rFixed r1 m1).ip1
        = (mixed_total_interest P n r1 m1 0).ip1 ∧
    (solve_r2_for_equal_interest P n rFixed r1 m1).ip2
        = (mixed_total_interest P n r1 m1 0).ip2 := by
  simp only [solve_r2_for_equal_interest]
  rw [if_neg (by omega : ¬ m1 ≥ n)]
  rw [expandHi_all_pos (fGap P n rFixed r1 m1) (fGap P n rFixed r1 m1 0) 20
    (2/12) hall]
  rw [if_pos (hall 20 (by omega))]
  exact ⟨rfl, rfl, rfl⟩

/-- Witness for C10 on the same concrete no-bracket input as C5. -/
theorem solve_no_sign_change_values_witness :
    (solve_r2_for_equal_interest 1200 12 0 (1/120) 6).achieved
        = (mixed_total_interest 1200 12 (1/120) 6 0).total ∧
    (solve_r2_for_equal_interest 1200 12 0 (1/120) 6).ip1
        = (mixed_total_interest 1200 12 (1/120) 6 0).ip1 ∧
    (solve_r2_for_equal_interest 1200 12 0 (1/120) 6).ip2
        = (mixed_total_interest 1200 12 (1/120) 6 0).ip2 :=
  solve_no_sign_change_values 1200 12 0 (1/120) 6 (by norm_num)
    (of_decide_eq_true (by with_unfolding_all rfl))

end Calculadora

/-! ## A Lipschitz bound for the equal-interest gap function -/

namespace Calculadora

theorem inv_one_add_sub_le (a b : ℚ) (ha : 0 ≤ a) (hab : a ≤ b) :
    (1 + a)⁻¹ - (1 + b)⁻¹ ≤ b - a := by
  have h1a : (0:ℚ) < 1 + a := by linarith
  have h1b : (0:ℚ) < 1 + b := by linarith
  have key : (1 + a)⁻¹ - (1 + b)⁻¹ = (b - a) / ((1 + a) * (1 + b)) := by
    field_simp
  rw [key]
  have hden : (1:ℚ) ≤ (1 + a) * (1 + b) := by nlinarith
  rw [div_le_iff₀ (by nlinarith : (0:ℚ) < (1 + a) * (1 + b))]
  nlinarith

theorem inv_pow_sub_le (a b : ℚ) (ha : 0 ≤ a) (hab : a ≤ b) :
    ∀ i : ℕ, ((1 + a)⁻¹) ^ i - ((1 + b)⁻¹) ^ i ≤ i * (b - a) := by
  have h1a : (0:ℚ) < 1 + a := by linarith
  have h1b : (0:ℚ) < 1 + b := by linarith
  have hya : (0:ℚ) ≤ (1 + a)⁻¹ := by positivity
  have hyb : (0:ℚ) ≤ (1 + b)⁻¹ := by positivity
  have hya1 : (1 + a)⁻¹ ≤ 1 := inv_le_one (by linarith)
  have hyb1 : (1 + b)⁻¹ ≤ 1 := inv_le_one (by linarith)
  have hyy : (1 + b)⁻¹ ≤ (1 + a)⁻¹ := inv_le_inv_of_le h1a (by linarith)
  intro i
  induction i with
  | zero => simp
  | succ i ih =>
    have hDnn : 0 ≤ ((1 + a)⁻¹) ^ i - ((1 + b)⁻¹) ^ i := by
      have := pow_le_pow_left hyb hyy i
      linarith
    have e : ((1 + a)⁻¹) ^ (i + 1) - ((1 + b)⁻¹) ^ (i + 1)
        = (1 + a)⁻¹ * (((1 + a)⁻¹) ^ i - ((1 + b)⁻¹) ^ i)
          + ((1 + b)⁻¹) ^ i * ((1 + a)⁻¹ - (1 + b)⁻¹) := by
      rw [pow_succ, pow_succ]
      ring
    have t1 : (1 + a)⁻¹ * (((1 + a)⁻¹) ^ i - ((1 + b)⁻¹) ^ i)
        ≤ ((1 + a)⁻¹) ^ i - ((1 + b)⁻¹) ^ i :=
      mul_le_of_le_one_left hDnn hya1
    have t2 : ((1 + b)⁻¹) ^ i * ((1 + a)⁻¹ - (1 + b)⁻¹) ≤ (1 + a)⁻¹ - (1 + b)⁻¹ :=
      mul_le_of_le_one_left (by linarith) (pow_le_one₀ hyb hyb1)
    have t3 := inv_one_add_sub_le a b ha hab
    rw [e]
    push_cast
    nlinarith [ih]

theorem invPowSum_le_of_le (a b : ℚ) (k : ℕ) (ha : 0 ≤ a) (hab : a ≤ b) :
    invPowSum b k ≤ invPowSum a k := by
  rcases hab.lt_or_eq with h | h
  · rcases Nat.eq_zero_or_pos k with hk | hk
    · subst hk; simp [invPowSum]
    · exact (invPowSum_lt a b k ha h (by omega)).le
  · rw [h]

theorem invPowSum_diff_le (a b : ℚ) (k : ℕ) (ha : 0 ≤ a) (hab : a ≤ b) :
    invPowSum a k - invPowSum b k ≤ (k:ℚ)^2 * (b - a) := by
  rw [invPowSum, invPowSum, ← Finset.sum_sub_distrib]
  have hterm : ∀ j ∈ Finset.range k,
      ((1 + a)⁻¹) ^ (j + 1) - ((1 + b)⁻¹) ^ (j + 1) ≤ (k:ℚ) * (b - a) := by
    intro j hj
    have h1 := inv_pow_sub_le a b ha hab (j + 1)
    have hjk : (j:ℚ) + 1 ≤ (k:ℚ) := by
      have := Finset.mem_range.mp hj
      exact_mod_cast this
    have hba : (0:ℚ) ≤ b - a := by linarith
    calc ((1 + a)⁻¹) ^ (j + 1) - ((1 + b)⁻¹) ^ (j + 1)
        ≤ ((j:ℚ) + 1) * (b - a) := by push_cast at h1 ⊢; linarith
      _ ≤ (k:ℚ) * (b - a) := by nlinarith
  calc ∑ j ∈ Finset.range k, (((1 + a)⁻¹) ^ (j + 1) - ((1 + b)⁻¹) ^ (j + 1))
      ≤ ∑ _j ∈ Finset.range k, (k:ℚ) * (b - a) := Finset.sum_le_sum hterm
    _ = (k:ℚ) * ((k:ℚ) * (b - a)) := by
        rw [Finset.sum_const, Finset.card_range]
        push_cast
        ring
    _ = (k:ℚ)^2 * (b - a) := by ring

theorem invPowSum_ge_inv (x c : ℚ) (k : ℕ) (hx : 0 ≤ x) (hxc : x ≤ c)
    (hk : k ≠ 0) : (1 + c)⁻¹ ≤ invPowSum x k := by
  have h1x : (0:ℚ) < 1 + x := by linarith
  have h1c : (0:ℚ) < 1 + c := by linarith
  have h0 : (0:ℕ) ∈ Finset.range k := Finset.mem_range.mpr (Nat.pos_of_ne_zero hk)
  have hfirst : ((1 + x)⁻¹) ^ (0 + 1) ≤ invPowSum x k := by
    rw [invPowSum]
    exact Finset.single_le_sum (f := fun j => ((1 + x)⁻¹) ^ (j + 1))
      (fun j _ => by positivity) h0
  have : (1 + c)⁻¹ ≤ (1 + x)⁻¹ := inv_le_inv_of_le h1x (by linarith)
  calc (1 + c)⁻¹ ≤ (1 + x)⁻¹ := this
    _ = ((1 + x)⁻¹) ^ (0 + 1) := by rw [pow_one]
    _ ≤ invPowSum x k := hfirst

theorem fGap_mono_r2 (P : ℚ) (n : ℤ) (rFixed r1 : ℚ) (m1 : ℤ)
    (hP : 0 < P) (hn : 0 < n) (hr1 : 0 ≤ r1) (hm0 : 0 ≤ m1) (hmn : m1 < n) :
    ∀ a b : ℚ, 0 ≤ a → a ≤ b →
      fGap P n rFixed r1 m1 a ≤ fGap P n rFixed r1 m1 b := by
  intro a b ha hab
  rcases hab.lt_or_eq with h | h
  · exact sub_le_sub_right
      (mixed_total_lt_of_r2_lt P n r1 m1 a b hP hn hr1 hm0 hmn ha h).le _
  · rw [h]

theorem fGap_lipschitz (P : ℚ) (n : ℤ) (rFixed r1 : ℚ) (m1 : ℤ) (c : ℚ)
    (hP : 0 < P) (hn : 0 < n) (hr1 : 0 ≤ r1) (hm0 : 0 ≤ m1) (hmn : m1 < n) :
    ∀ a b : ℚ, 0 ≤ a → a ≤ b → b ≤ c →
      fGap P n rFixed r1 m1 b - fGap P n rFixed r1 m1 a
        ≤ ((n - m1).toNat : ℚ)^3 * P * (1 + c)^2 * (b - a) := by
  intro a b ha hab hbc
  have hb : 0 ≤ b := le_trans ha hab
  set k := (n - m1).toNat with hkdef
  have hk0 : k ≠ 0 := by omega
  set B := (phaseLoop r1 (levelPayment P r1 n) m1.toNat P).1 with hBdef
  have hBpos : 0 < B := mixed_phase1_balance_pos P n r1 m1 hP hr1 hm0 hmn
  have hBle : B ≤ P := mixed_phase1_balance_le P n r1 m1 hP hr1 hm0 hmn
  have hSa := invPowSum_pos a k ha hk0
  have hSb := invPowSum_pos b k hb hk0
  have hdiff : fGap P n rFixed r1 m1 b - fGap P n rFixed r1 m1 a
      = (k:ℚ) * (B / invPowSum b k) - (k:ℚ) * (B / invPowSum a k) := by
    unfold fGap
    rw [mixed_total_eq P n r1 m1 b hP hn hm0 hmn hb,
      mixed_total_eq P n r1 m1 a hP hn hm0 hmn ha]
    rw [← hkdef, ← hBdef]
    ring
  have key : B / invPowSum b k - B / invPowSum a k
      = B * (invPowSum a k - invPowSum b k)
        * (invPowSum a k)⁻¹ * (invPowSum b k)⁻¹ := by
    field_simp
    ring
  have t2 : invPowSum a k - invPowSum b k ≤ (k:ℚ)^2 * (b - a) :=
    invPowSum_diff_le a b k ha hab
  have t2n : 0 ≤ invPowSum a k - invPowSum b k := by
    have := invPowSum_le_of_le a b k ha hab
    linarith
  have t3 : (invPowSum a k)⁻¹ ≤ 1 + c := by
    have h1 := invPowSum_ge_inv a c k ha (by linarith) hk0
    have h1c : (0:ℚ) < 1 + c := by
      have : (0:ℚ) ≤ c := le_trans hb hbc
      linarith
    calc (invPowSum a k)⁻¹ ≤ ((1 + c)⁻¹)⁻¹ :=
          inv_le_inv_of_le (inv_pos.mpr h1c) h1
      _ = 1 + c := inv_inv _
  have t4 : (invPowSum b k)⁻¹ ≤ 1 + c := by
    have h1 := invPowSum_ge_inv b c k hb hbc hk0
    have h1c : (0:ℚ) < 1 + c := by
      have : (0:ℚ) ≤ c := le_trans hb hbc
      linarith
    calc (invPowSum b k)⁻¹ ≤ ((1 + c)⁻¹)⁻¹ :=
          inv_le_inv_of_le (inv_pos.mpr h1c) h1
      _ = 1 + c := inv_inv _
  have t3n : (0:ℚ) ≤ (invPowSum a k)⁻¹ := inv_nonneg.mpr hSa.le
  have t4n : (0:ℚ) ≤ (invPowSum b k)⁻¹ := inv_nonneg.mpr hSb.le
  have hba : (0:ℚ) ≤ b - a := by linarith
  have hc0 : (0:ℚ) ≤ 1 + c := by
    have : (0:ℚ) ≤ c := le_trans hb hbc
    linarith
  have m1le : B * (invPowSum a k - invPowSum b k) ≤ P * ((k:ℚ)^2 * (b - a)) :=
    mul_le_mul hBle t2 t2n hP.le
  have m2le : B * (invPowSum a k - invPowSum b k) * (invPowSum a k)⁻¹
      ≤ P * ((k:ℚ)^2 * (b - a)) * (1 + c) :=
    mul_le_mul m1le t3 t3n
      (mul_nonneg hP.le (mul_nonneg (by positivity) hba))
  have m3le : B * (invPowSum a k - invPowSum b k) * (invPowSum a k)⁻¹
        * (invPowSum b k)⁻¹
      ≤ P * ((k:ℚ)^2 * (b - a)) * (1 + c) * (1 + c) :=
    mul_le_mul m2le t4 t4n
      (mul_nonneg (mul_nonneg hP.le (mul_nonneg (by positivity) hba)) hc0)
  have hknn : (0:ℚ) ≤ (k:ℚ) := by positivity
  calc fGap P n rFixed r1 m1 b - fGap P n rFixed r1 m1 a
      = (k:ℚ) * (B / invPowSum b k - B / invPowSum a k) := by rw [hdiff]; ring
    _ = (k:ℚ) * (B * (invPowSum a k - invPowSum b k)
          * (invPowSum a k)⁻¹ * (invPowSum b k)⁻¹) := by rw [key]
    _ ≤ (k:ℚ) * (P * ((k:ℚ)^2 * (b - a)) * (1 + c) * (1 + c)) :=
        mul_le_mul_of_nonneg_left m3le hknn
    _ = (k:ℚ)^3 * P * (1 + c)^2 * (b - a) := by ring

end Calculadora

/-! ## What the bisection loop guarantees -/

namespace Calculadora

theorem bisect_spec (f : ℚ → ℚ)
    (hmono : ∀ a b : ℚ, 0 ≤ a → a ≤ b → f a ≤ f b) :
    ∀ (fuel : ℕ) (lo hi : ℚ), 0 ≤ lo → lo ≤ hi → f lo ≤ 0 → 0 ≤ f hi →
      lo ≤ (bisect f fuel lo (f lo) hi).1 ∧
      (bisect f fuel lo (f lo) hi).1 ≤ (bisect f fuel lo (f lo) hi).2 ∧
      (bisect f fuel lo (f lo) hi).2 ≤ hi ∧
      ((f (bisect f fuel lo (f lo) hi).1 ≤ 0 ∧
        0 ≤ f (bisect f fuel lo (f lo) hi).2 ∧
        (bisect f fuel lo (f lo) hi).2 - (bisect f fuel lo (f lo) hi).1
          ≤ (hi - lo) / 2 ^ fuel) ∨
       ((bisect f fuel lo (f lo) hi).1 = (bisect f fuel lo (f lo) hi).2 ∧
        |f (bisect f fuel lo (f lo) hi).1| < 1 / 100000000)) := by
  intro fuel
  induction fuel with
  | zero =>
    intro lo hi h0 hlh hflo hfhi
    simp only [bisect]
    exact ⟨le_rfl, hlh, le_rfl, Or.inl ⟨hflo, hfhi, by simp⟩⟩
  | succ fuel ih =>
    intro lo hi h0 hlh hflo hfhi
    simp only [bisect]
    split_ifs with habs hsign
    · exact ⟨by linarith, le_rfl, by linarith, Or.inr ⟨rfl, habs⟩⟩
    · have hmid0 : 0 ≤ (lo + hi) / 2 := by linarith
      have hlm : lo ≤ (lo + hi) / 2 := by linarith
      have hfmid : 0 ≤ f ((lo + hi) / 2) := by
        rcases lt_or_eq_of_le hflo with h | h
        · by_contra hneg
          push_neg at hneg
          have := mul_pos_of_neg_of_neg h hneg
          linarith [hsign]
        · have := hmono lo ((lo + hi) / 2) h0 hlm
          linarith
      obtain ⟨b1, b2, b3, b4⟩ := ih lo ((lo + hi) / 2) h0 hlm hflo hfmid
      refine ⟨b1, b2, le_trans b3 (by linarith), ?_⟩
      rcases b4 with ⟨c1, c2, c3⟩ | hc
      · refine Or.inl ⟨c1, c2, ?_⟩
        have h2 : ((2:ℚ)) ^ fuel ≠ 0 := by positivity
        have he : ((lo + hi) / 2 - lo) / 2 ^ fuel = (hi - lo) / 2 ^ (fuel + 1) := by
          rw [pow_succ]
          field_simp
          ring
        rw [he] at c3
        exact c3
      · exact Or.inr hc
    · push_neg at hsign
      have hflo' : f lo < 0 := by
        rcases lt_or_eq_of_le hflo with h | h
        · exact h
        · rw [h] at hsign
          simp at hsign
      have hfmid : f ((lo + hi) / 2) < 0 := by
        by_contra hge
        push_neg at hge
        nlinarith [mul_nonneg hge (neg_nonneg.mpr hflo'.le)]
      have hmid0 : 0 ≤ (lo + hi) / 2 := by linarith
      have hmh : (lo + hi) / 2 ≤ hi := by linarith
      obtain ⟨b1, b2, b3, b4⟩ := ih ((lo + hi) / 2) hi hmid0 hmh hfmid.le hfhi
      refine ⟨le_trans (by linarith) b1, b2, b3, ?_⟩
      rcases b4 with ⟨c1, c2, c3⟩ | hc
      · refine Or.inl ⟨c1, c2, ?_⟩
        have h2 : ((2:ℚ)) ^ fuel ≠ 0 := by positivity
        have he : (hi - (lo + hi) / 2) / 2 ^ fuel = (hi - lo) / 2 ^ (fuel + 1) := by
          rw [pow_succ]
          field_simp
          ring
        rw [he] at c3
        exact c3
      · exact Or.inr hc

theorem bisect_result_bound (f : ℚ → ℚ)
    (hmono : ∀ a b : ℚ, 0 ≤ a → a ≤ b → f a ≤ f b)
    (L hi0 : ℚ) (hL0 : 0 ≤ L)
    (hlip : ∀ a b : ℚ, 0 ≤ a → a ≤ b → b ≤ hi0 → f b - f a ≤ L * (b - a))
    (fuel : ℕ) (lo hi : ℚ) (h0 : 0 ≤ lo) (hlh : lo ≤ hi) (hhi : hi ≤ hi0)
    (hflo : f lo ≤ 0) (hfhi : 0 ≤ f hi) :
    |f (((bisect f fuel lo (f lo) hi).1 + (bisect f fuel lo (f lo) hi).2) / 2)|
      ≤ max (L * ((hi - lo) / 2 ^ fuel)) (1 / 100000000) := by
  obtain ⟨h1, h2, h3, h4⟩ := bisect_spec f hmono fuel lo hi h0 hlh hflo hfhi
  rcases h4 with ⟨hfl, hfh, hw⟩ | ⟨heq, habs⟩
  · have hsol1 : (bisect f fuel lo (f lo) hi).1
        ≤ ((bisect f fuel lo (f lo) hi).1 + (bisect f fuel lo (f lo) hi).2) / 2 := by
      linarith
    have hsol2 : ((bisect f fuel lo (f lo) hi).1 + (bisect f fuel lo (f lo) hi).2) / 2
        ≤ (bisect f fuel lo (f lo) hi).2 := by
      linarith
    have h0l : 0 ≤ (bisect f fuel lo (f lo) hi).1 := le_trans h0 h1
    have hf1 := hmono _ _ h0l hsol1
    have hf2 := hmono _ _ (le_trans h0l hsol1) hsol2
    have hd : f (bisect f fuel lo (f lo) hi).2 - f (bisect f fuel lo (f lo) hi).1
        ≤ L * ((bisect f fuel lo (f lo) hi).2 - (bisect f fuel lo (f lo) hi).1) :=
      hlip _ _ h0l h2 (le_trans h3 hhi)
    have habs2 : |f (((bisect f fuel lo (f lo) hi).1
          + (bisect f fuel lo (f lo) hi).2) / 2)|
        ≤ f (bisect f fuel lo (f lo) hi).2 - f (bisect f fuel lo (f lo) hi).1 := by
      rw [abs_le]
      constructor <;> linarith
    have hL : L * ((bisect f fuel lo (f lo) hi).2 - (bisect f fuel lo (f lo) hi).1)
        ≤ L * ((hi - lo) / 2 ^ fuel) := mul_le_mul_of_nonneg_left hw hL0
    exact le_trans (le_trans habs2 (le_trans hd hL)) (le_max_left _ _)
  · have hsol : ((bisect f fuel lo (f lo) hi).1 + (bisect f fuel lo (f lo) hi).2) / 2
        = (bisect f fuel lo (f lo) hi).1 := by
      rw [← heq]
      ring
    rw [hsol]
    exact le_trans habs.le (le_max_right _ _)

end Calculadora

/-! ## The concrete equal-interest solve of the comparador tab -/

namespace Calculadora

theorem solve_bracket_path (P : ℚ) (n : ℤ) (rFixed r1 : ℚ) (m1 : ℤ)
    (hm : m1 < n)
    (hbr : ¬ (fGap P n rFixed r1 m1 0 * fGap P n rFixed r1 m1 (2/12) > 0)) :
    (solve_r2_for_equal_interest P n rFixed r1 m1).rate
        = some (((bisect (fGap P n rFixed r1 m1) 80 0
              (fGap P n rFixed r1 m1 0) (2/12)).1
            + (bisect (fGap P n rFixed r1 m1) 80 0
              (fGap P n rFixed r1 m1 0) (2/12)).2) / 2) ∧
    (solve_r2_for_equal_interest P n rFixed r1 m1).achieved
        = (mixed_total_interest P n r1 m1
            (((bisect (fGap P n rFixed r1 m1) 80 0
                (fGap P n rFixed r1 m1 0) (2/12)).1
              + (bisect (fGap P n rFixed r1 m1) 80 0
                (fGap P n rFixed r1 m1 0) (2/12)).2) / 2)).total ∧
    (solve_r2_for_equal_interest P n rFixed r1 m1).target
        = targetInterest P n rFixed := by
  have hexp : expandHi (fGap P n rFixed r1 m1) (fGap P n rFixed r1 m1 0) (2/12)
      (fGap P n rFixed r1 m1 (2/12)) 20
      = (2/12, fGap P n rFixed r1 m1 (2/12)) := by
    rw [show (20:ℕ) = 19 + 1 from rfl]
    simp only [expandHi]
    rw [if_neg hbr]
  simp only [solve_r2_for_equal_interest]
  rw [if_neg (by omega : ¬ m1 ≥ n), hexp]
  dsimp only
  rw [if_neg hbr]
  exact ⟨rfl, rfl, rfl⟩

/-- C3: for `P = 150000`, `n = 300` months, reference fixed monthly rate
`3%/12 = 1/400`, phase-1 monthly rate `2.5%/12 = 1/480` and 60 phase-1
months, `solve_r2_for_equal_interest` returns a non-null `rate2` such that
the total interest of `mixed_total_interest` at that rate is within `1e-6`
of the target (the interest of the fixed 3%/300-month loan). -/
theorem solve_concrete_equal_interest :
    ∃ r2 : ℚ,
      (solve_r2_for_equal_interest 150000 300 (1/400) (1/480) 60).rate = some r2 ∧
      |(mixed_total_interest 150000 300 (1/480) 60 r2).total
        - targetInterest 150000 300 (1/400)| ≤ 1 / 1000000 := by
  have hflo : fGap 150000 300 (1/400) (1/480) 60 0 < 0 :=
    of_decide_eq_true (by with_unfolding_all rfl)
  have hfhi : 0 < fGap 150000 300 (1/400) (1/480) 60 (2/12) :=
    of_decide_eq_true (by with_unfolding_all rfl)
  have hbr : ¬ (fGap 150000 300 (1/400) (1/480) 60 0
      * fGap 150000 300 (1/400) (1/480) 60 (2/12) > 0) := by
    apply not_lt.mpr
    nlinarith [mul_nonneg hfhi.le (neg_nonneg.mpr hflo.le)]
  obtain ⟨hrate, hach, htgt⟩ := solve_bracket_path 150000 300 (1/400) (1/480) 60
    (by norm_num) hbr
  refine ⟨_, hrate, ?_⟩
  have hfg : ∀ x : ℚ, (mixed_total_interest 150000 300 (1/480) 60 x).total
      - targetInterest 150000 300 (1/400)
      = fGap 150000 300 (1/400) (1/480) 60 x := fun x => rfl
  rw [hfg]
  have hmono := fGap_mono_r2 150000 300 (1/400) (1/480) 60 (by norm_num)
    (by norm_num) (by norm_num) (by norm_num) (by norm_num)
  have hlipgen := fGap_lipschitz 150000 300 (1/400) (1/480) 60 (2/12)
    (by norm_num) (by norm_num) (by norm_num) (by norm_num) (by norm_num)
  have hL0 : (0:ℚ) ≤ (((300:ℤ) - 60).toNat : ℚ)^3 * 150000 * (1 + 2/12)^2 := by
    positivity
  have hb := bisect_result_bound (fGap 150000 300 (1/400) (1/480) 60) hmono
    ((((300:ℤ) - 60).toNat : ℚ)^3 * 150000 * (1 + 2/12)^2) (2/12) hL0 hlipgen
    80 0 (2/12) le_rfl (by norm_num) le_rfl hflo.le hfhi.le
  refine le_trans hb (max_le ?_ (by norm_num))
  rw [show (((300:ℤ) - 60).toNat : ℚ) = 240 by with_unfolding_all rfl]
  norm_num

end Calculadora

/-! ## Exactness of the premium interpolation at tabulated points -/

namespace Calculadora

set_option maxHeartbeats 8000000 in
theorem prima_table_all_check :
    ((List.range PREMIAS_ING.length).all fun i =>
      (List.range CAPITALS_ING.length).all fun j =>
        ratEqB (prima_orientativa_ing ((PREMIAS_ING.getD i (0, [])).1)
            (CAPITALS_ING.getD j 0))
          (((PREMIAS_ING.getD i (0, [])).2).getD j 0)) = true := by
  with_unfolding_all rfl

/-- C7: at every tabulated `(age, capital)` pair the bilinear interpolator
returns exactly the tabulated premium; moreover the degenerate case of
`lerp` (equal bracketing breakpoints, as happens for every interior
tabulated age or capital) returns `y0` exactly through the `x0 == x1`
guard, with no division by zero. -/
theorem prima_tabulated_exact :
    (∀ x0 y0 y1 x : ℚ, lerp x0 x0 y0 y1 x = y0) ∧
    ∀ i < PREMIAS_ING.length, ∀ j < CAPITALS_ING.length,
      prima_orientativa_ing ((PREMIAS_ING.getD i (0, [])).1)
          (CAPITALS_ING.getD j 0)
        = ((PREMIAS_ING.getD i (0, [])).2).getD j 0 := by
  constructor
  · intro x0 y0 y1 x
    unfold lerp
    rw [if_pos ((ratEqB_eq_true_iff x0 x0).mpr rfl)]
  · intro i hi j hj
    have h := prima_table_all_check
    simp only [List.all_eq_true, List.mem_range] at h
    exact (ratEqB_eq_true_iff _ _).mp (h i hi j hj)

/-- Witness for C7: age 30 at capital 100000 gives exactly the tabulated
18.34 euros. -/
theorem prima_tabulated_exact_witness :
    prima_orientativa_ing 30 100000 = 1834 / 100 := by
  have h := prima_tabulated_exact.2 12
    (of_decide_eq_true (by with_unfolding_all rfl)) 2
    (of_decide_eq_true (by with_unfolding_all rfl))
  have e1 : ((PREMIAS_ING.getD 12 (0, [])).1 : ℚ) = 30 := by
    with_unfolding_all rfl
  have e2 : (CAPITALS_ING.getD 2 0 : ℚ) = 100000 := by
    with_unfolding_all rfl
  have e3 : (((PREMIAS_ING.getD 12 (0, [])).2).getD 2 0 : ℚ) = 1834 / 100 := by
    with_unfolding_all rfl
  rw [e1, e2, e3] at h
  exact h

end Calculadora
